import Mathlib

/-! Zone panel controller: registry, layout, touch resolution and topic routing.

A shallow embedding of `src/src/main.cpp`.

Modelling conventions.

* An Arduino `String` is modelled by the characters of its buffer, `List Char`, over its
  length `len`; concatenation is list append.  A `String` built from a C string or a literal
  holds no NUL character; the payload `String` of `mqttCallback` is built byte by byte from the
  raw payload and holds every byte of it, NUL bytes included.  `String == String` is equality
  of the sequences (the right-hand sides in the source are NUL-free), and
  `String == const char*` is `strcmp`, which stops at the first NUL of the buffer.  The
  `String` methods the source calls (`startsWith`, `indexOf`, `substring`, `toInt`, `equals`,
  the constructor from `int`) are library code; they are modelled after the Arduino core.
* `int` values are modelled by `Int`.  The surface dimensions are `int16_t` values of the
  display driver and the registry lives in the RAM of a microcontroller, so none of the
  layout sums leaves the 32-bit range; the places where the source converts between signed and
  unsigned values (`substring` arguments) are modelled with an explicit reduction modulo `2^32`,
  and `toInt` saturates at the bounds of a 32-bit `long`.
* `std::vector<Zone> zones` is the global state; it is passed explicitly as a `List Zone`.
* Drawing and serial logging do not write to the registry and are left out; the one piece of
  logging that reads the registry (`getTouchedZone`) is kept as an access trace.
* The display, the touch sensor and the MQTT client are collaborators: the surface dimensions
  `tft.width()`, `tft.height()` are parameters, a touch is the sample `ts.points[0]` read
  while `ts.isTouched` holds, and `mqttClient.publish` calls are collected in a list.
* `BASE_TOPIC` comes from `config.h`; the functions take it as the parameter `base`, and
  `BASE_TOPIC` below is the value of `src/include/config-example.h`.
-/

namespace RoomController

/-! ## Arduino `String` operations used by the source -/

/-- Arduino strings as character sequences. -/
abbrev AString := List Char

/-- The character of a decimal digit `d < 10`. -/
def digitChar (d : Nat) : Char :=
  match d with
  | 0 => '0'
  | 1 => '1'
  | 2 => '2'
  | 3 => '3'
  | 4 => '4'
  | 5 => '5'
  | 6 => '6'
  | 7 => '7'
  | 8 => '8'
  | _ => '9'

/-- Decimal digits of `n`, most significant first; `fuel` bounds the number of digits. -/
def decDigitsFuel : Nat → Nat → AString
  | 0, _ => []
  | fuel + 1, n =>
    if n < 10 then [digitChar n] else decDigitsFuel fuel (n / 10) ++ [digitChar (n % 10)]

/-- Decimal representation of a natural number (`itoa` on a non-negative value). -/
def natToString (n : Nat) : AString := decDigitsFuel (n + 1) n

/-- Arduino `String(int)`: decimal representation, with a leading minus sign when negative. -/
def intToString (z : Int) : AString :=
  if z < 0 then '-' :: natToString z.natAbs else natToString z.natAbs

/-- Value of a decimal digit character, `none` for any other character. -/
def digitVal (c : Char) : Option Nat :=
  if '0' ≤ c ∧ c ≤ '9' then some (c.toNat - 48) else none

/-- The digit-accumulating loop of `strtol`: reads digits until the first non-digit. -/
def parseDigits : AString → Nat → Nat
  | [], acc => acc
  | c :: rest, acc =>
    match digitVal c with
    | some d => parseDigits rest (acc * 10 + d)
    | none => acc

/-- C `isspace` in the default locale. -/
def isSpace (c : Char) : Bool :=
  c == ' ' || c == '\t' || c == '\n' || c == '\r' || c.toNat == 11 || c.toNat == 12

/-- Saturation of `strtol` to the range of a 32-bit `long`. -/
def clampLong (z : Int) : Int :=
  if z > 2147483647 then 2147483647 else if z < -2147483648 then -2147483648 else z

/-- Arduino `String::toInt` (`atol`): leading white space, an optional sign, then digits;
`0` when there is no digit. -/
def toInt (s : AString) : Int :=
  match s.dropWhile isSpace with
  | '-' :: rest => clampLong (-(parseDigits rest 0 : Int))
  | '+' :: rest => clampLong (parseDigits rest 0 : Int)
  | rest => clampLong (parseDigits rest 0 : Int)

/-- Whether `pre` is an initial segment of `s` (`strncmp` over the length of `pre`). -/
def startsWith : AString → AString → Bool
  | _, [] => true
  | [], _ :: _ => false
  | c :: s, d :: pre => c == d && startsWith s pre

/-- The search of `strstr`: offset of the first occurrence of `pat` in `s`. -/
def findFrom (pat : AString) : AString → Option Nat
  | [] => if pat.isEmpty then some 0 else none
  | c :: s =>
    if startsWith (c :: s) pat then some 0 else (findFrom pat s).map (· + 1)

/-- Arduino `String::indexOf(const String&)`: index of the first occurrence, `-1` if there is
none or if the string is empty. -/
def indexOf (s pat : AString) : Int :=
  if s.length = 0 then -1
  else
    match findFrom pat s with
    | some i => (i : Int)
    | none => -1

/-- Conversion of an `int` argument to `unsigned int`. -/
def toUnsigned (z : Int) : Nat := (z % 4294967296).toNat

/-- Arduino `String::substring(left, right)` on `unsigned int` arguments. -/
def substring (s : AString) (left right : Nat) : AString :=
  let l := if left > right then right else left
  let r := if left > right then left else right
  if l ≥ s.length then []
  else
    let r := if r > s.length then s.length else r
    (s.drop l).take (r - l)

/-- Arduino `String::substring(beginIndex)`. -/
def substringFrom (s : AString) (left : Nat) : AString := substring s left s.length

/-- The C string that starts at the first character of a buffer: the characters before the
first NUL. -/
def cString (s : AString) : AString := s.takeWhile (fun c => c != Char.ofNat 0)

/-- Arduino `String == const char*` (`String::equals(const char*)`): for an empty `String`
the literal must be empty, otherwise `strcmp` of the buffer with the literal is `0`, which
compares the two C strings and so ignores what follows the first NUL of the buffer. -/
def equalsCStr (s lit : AString) : Bool :=
  if s.length = 0 then (cString lit).isEmpty
  else cString s == cString lit

/-! ## Data model and constants -/

/-- The `Zone` struct. -/
structure Zone where
  name : AString
  isOpen : Bool
  x : Int
  y : Int
  w : Int
  h : Int
  number : Int
  deriving DecidableEq, Repr

/-- Layout constant `HEADER_HEIGHT`. -/
def HEADER_HEIGHT : Int := 48

/-- Layout constant `CARD_PADDING`. -/
def CARD_PADDING : Int := 6

/-- The base topic of `src/include/config-example.h`. -/
def BASE_TOPIC : AString := "zone-controller".toList

/-! ## Layout: `drawAllZones` -/

/-- The body of the loop of `drawAllZones`, from index `i` on: writes the rectangle of each
zone.  `cardW`, `cardH` are the card dimensions computed before the loop. -/
def drawZonesFrom (cardW cardH : Int) : Nat → List Zone → List Zone
  | _, [] => []
  | i, z :: rest =>
    let row : Int := Int.tdiv (i : Int) 2
    let col : Int := Int.tmod (i : Int) 2
    let x := CARD_PADDING + col * (cardW + CARD_PADDING)
    let y := HEADER_HEIGHT + CARD_PADDING + row * (cardH + CARD_PADDING)
    { z with x := x, y := y, w := cardW, h := cardH } :: drawZonesFrom cardW cardH (i + 1) rest

/-- Function `drawAllZones`, for a surface of `width` by `height`: the effect on the registry. -/
def drawAllZones (width height : Int) (zones : List Zone) : List Zone :=
  if zones.isEmpty then zones
  else
    let numCols : Int := 2
    let numRows : Int := (((zones.length + 1) / 2 : Nat) : Int)
    let cardW := Int.tdiv (width - 3 * CARD_PADDING) numCols
    let cardH := Int.tdiv (height - HEADER_HEIGHT - (numRows + 1) * CARD_PADDING) numRows
    drawZonesFrom cardW cardH 0 zones

/-! ## Registry: `addZone` -/

/-- The search loop of `addZone`: `some` registry when a zone with this number exists (its
name replaced when a name is given), `none` when the loop ends without a match. -/
def addZoneLoop (zoneNumber : Int) (name : AString) : List Zone → Option (List Zone)
  | [] => none
  | z :: rest =>
    if z.number = zoneNumber then
      some ((if !name.isEmpty then { z with name := name } else z) :: rest)
    else (addZoneLoop zoneNumber name rest).map (z :: ·)

/-- Function `addZone`, on a surface of `width` by `height`. -/
def addZone (width height : Int) (zones : List Zone) (zoneNumber : Int)
    (name : AString) (isOpen : Bool) : List Zone :=
  match addZoneLoop zoneNumber name zones with
  | some zs => zs
  | none =>
    let zoneName := if name.isEmpty then "Zone ".toList ++ intToString zoneNumber else name
    drawAllZones width height
      (zones ++ [{ name := zoneName, isOpen := isOpen, x := 0, y := 0, w := 0, h := 0,
                   number := zoneNumber }])

/-! ## Touch resolution: `getTouchedZone` -/

/-- The containment test of `getTouchedZone` for one zone. -/
def hitTest (z : Zone) (tx ty : Int) : Bool :=
  decide (tx ≥ z.x) && decide (tx < z.x + z.w) && decide (ty ≥ z.y) && decide (ty < z.y + z.h)

/-- The search loop of `getTouchedZone` from index `i` on: the indices `zones[i]` it reads,
and the value it returns (`-1` when the loop ends without a hit). -/
def touchScan (tx ty : Int) : Nat → List Zone → List Nat × Int
  | _, [] => ([], -1)
  | i, z :: rest =>
    if hitTest z tx ty then ([i], (i : Int))
    else
      let r := touchScan tx ty (i + 1) rest
      (i :: r.1, r.2)

/-- Function `getTouchedZone` with its accesses: the indices at which it reads `zones[...]`,
in program order, and its return value.  The values read by the three logging statements at
the top only go to the serial log. -/
def getTouchedZoneTraced (zones : List Zone) (tx ty : Int) : List Nat × Int :=
  let logged := if !zones.isEmpty then [0, 1, 15] else []
  let r := touchScan tx ty 0 zones
  (logged ++ r.1, r.2)

/-- Return value of `getTouchedZone`. -/
def getTouchedZone (zones : List Zone) (tx ty : Int) : Int :=
  (getTouchedZoneTraced zones tx ty).2

/-- Indices of `zones` that `getTouchedZone` reads. -/
def getTouchedZoneReads (zones : List Zone) (tx ty : Int) : List Nat :=
  (getTouchedZoneTraced zones tx ty).1

/-! ## Topic routing: `mqttCallback` -/

/-- The zone number extraction at the top of `mqttCallback`. -/
def extractZoneNumber (base t : AString) : Int :=
  if startsWith t (base ++ "/zone".toList) && decide (indexOf t "/".toList > 0) then
    let zoneStr := substringFrom t (toUnsigned (indexOf t "/zone".toList + 5))
    let zoneStr := substring zoneStr 0 (toUnsigned (indexOf zoneStr "/".toList))
    toInt zoneStr
  else 0

/-- The state update loop of `mqttCallback`: the first zone with this number gets the state. -/
def setStateLoop (zoneNumber : Int) (v : Bool) : List Zone → List Zone
  | [] => []
  | z :: rest =>
    if z.number = zoneNumber then { z with isOpen := v } :: rest
    else z :: setStateLoop zoneNumber v rest

/-- The name update loop of `mqttCallback`: the first zone with this number gets the name. -/
def setNameLoop (zoneNumber : Int) (p : AString) : List Zone → List Zone
  | [] => []
  | z :: rest =>
    if z.number = zoneNumber then { z with name := p } :: rest
    else z :: setNameLoop zoneNumber p rest

/-- Function `mqttCallback`: the registry after the message with topic `t` and payload `p`.
`t` is the `String` made from the C string `topic`; `p` is the `String` to which the loop
at the top appends the `length` payload bytes one by one, so it holds the raw payload. -/
def mqttCallback (width height : Int) (base : AString) (zones : List Zone)
    (t p : AString) : List Zone :=
  let zoneNumber := extractZoneNumber base t
  if zoneNumber > 0 then
    let stateTopic := base ++ "/zone".toList ++ intToString zoneNumber ++ "/state".toList
    let nameTopic := base ++ "/zone".toList ++ intToString zoneNumber ++ "/name".toList
    if t = stateTopic then
      setStateLoop zoneNumber (equalsCStr p "ON".toList)
        (addZone width height zones zoneNumber [] false)
    else if t = nameTopic then
      setNameLoop zoneNumber p (addZone width height zones zoneNumber p false)
    else zones
  else zones

/-! ## Touch handling in `loop` -/

/-- The touch branch of `loop` for a touch sample `(px, py)` of the sensor: the registry
afterwards and the list of `(topic, payload)` pairs passed to `mqttClient.publish`.
`getTouchedZone` only returns indices of the registry, so the `none` case is never taken. -/
def loopTouch (base : AString) (zones : List Zone) (px py : Nat) :
    List Zone × List (AString × AString) :=
  let fx : Int := 320 - (px : Int)
  let fy : Int := 480 - (py : Int)
  let idx := getTouchedZone zones fx fy
  if idx ≠ -1 then
    match zones[idx.toNat]? with
    | some z =>
      let newState := !z.isOpen
      let topic := base ++ "/zone".toList ++ intToString (idx + 1) ++ "/set".toList
      (zones.set idx.toNat { z with isOpen := newState },
        [(topic, if newState then "ON".toList else "OFF".toList)])
    | none => (zones, [])
  else (zones, [])

/-- States of the registry reachable from the empty registry by inbound messages and touches,
on a surface of fixed dimensions. -/
inductive Reachable (width height : Int) (base : AString) : List Zone → Prop
  | init : Reachable width height base []
  | message (zones : List Zone) (t p : AString) :
      Reachable width height base zones →
      Reachable width height base (mqttCallback width height base zones t p)
  | touch (zones : List Zone) (px py : Nat) :
      Reachable width height base zones →
      Reachable width height base (loopTouch base zones px py).1

/-! ## Specification-side definitions -/

/-- The half-open containment test of the specification: the point `(tx, ty)` lies in
`[x, x+w) × [y, y+h)` of the rectangle stored in `z`. -/
def inRect (z : Zone) (tx ty : Int) : Prop :=
  z.x ≤ tx ∧ tx < z.x + z.w ∧ z.y ≤ ty ∧ ty < z.y + z.h

instance instDecidableInRect (z : Zone) (tx ty : Int) : Decidable (inRect z tx ty) := by
  unfold inRect; infer_instance

/-- A screen rectangle `{x, y, w, h}`. -/
structure Rect where
  x : Int
  y : Int
  w : Int
  h : Int
  deriving DecidableEq, Repr

/-- The rectangle stored in a zone. -/
def Zone.rect (z : Zone) : Rect := { x := z.x, y := z.y, w := z.w, h := z.h }

/-- Number of rows of the 2-column grid of the specification: `ceil(zoneCount / 2)`. -/
def layoutRows (zoneCount : Nat) : Nat := zoneCount / 2 + zoneCount % 2

/-- The rectangle of card `i` in the layout of the specification, for `zoneCount` zones:
card width `(surfaceWidth - 3*padding) / 2`, card height
`(surfaceHeight - headerHeight - (rows+1)*padding) / rows`, card `i` at row `i/2` and
column `i%2`. -/
def layoutRect (surfaceWidth surfaceHeight headerHeight padding : Int) (zoneCount i : Nat) :
    Rect :=
  let rows : Int := (layoutRows zoneCount : Nat)
  let cardW := Int.tdiv (surfaceWidth - 3 * padding) 2
  let cardH := Int.tdiv (surfaceHeight - headerHeight - (rows + 1) * padding) rows
  let row : Int := ((i / 2 : Nat) : Int)
  let col : Int := ((i % 2 : Nat) : Int)
  { x := padding + col * (cardW + padding),
    y := headerHeight + padding + row * (cardH + padding),
    w := cardW, h := cardH }

/-- The distinct ids of a sequence, in order of first occurrence: each id is kept where it
occurs first and dropped from the rest of the sequence. -/
def firstOccurrences : List Int → List Int
  | [] => []
  | a :: rest => a :: (firstOccurrences rest).filter (fun b => b != a)

/-- The registry after a sequence of `addZone(id, name)` calls, in the order of the list. -/
def addZones (width height : Int) (zones : List Zone) (calls : List (Int × AString)) :
    List Zone :=
  calls.foldl (fun zs c => addZone width height zs c.1 c.2 false) zones

/-- The registry is laid out: every stored rectangle is the one of the layout formula for the
current zone count. -/
def LaidOut (width height : Int) (zones : List Zone) : Prop :=
  zones.map Zone.rect =
    (List.range zones.length).map
      (layoutRect width height HEADER_HEIGHT CARD_PADDING zones.length)

/-- The characters produced by `digitChar`. -/
def isDigit (c : Char) : Prop :=
  c = '0' ∨ c = '1' ∨ c = '2' ∨ c = '3' ∨ c = '4' ∨ c = '5' ∨ c = '6' ∨ c = '7' ∨
  c = '8' ∨ c = '9'

/-! ## Touch resolution: proofs -/

theorem hitTest_iff (z : Zone) (tx ty : Int) : hitTest z tx ty = true ↔ inRect z tx ty := by
  simp [hitTest, inRect, and_assoc]

theorem touchScan_range (tx ty : Int) : ∀ (zones : List Zone) (s : Nat),
    (touchScan tx ty s zones).2 = -1 ∨
      ((s : Int) ≤ (touchScan tx ty s zones).2 ∧
        (touchScan tx ty s zones).2 < (s : Int) + zones.length) := by
  intro zones
  induction zones with
  | nil => intro s; left; rfl
  | cons z rest ih =>
    intro s
    by_cases hz : hitTest z tx ty = true
    · right
      simp only [touchScan, hz, if_true, List.length_cons]
      constructor <;> omega
    · simp only [touchScan, hz, List.length_cons]
      rcases ih (s + 1) with h | ⟨h1, h2⟩
      · left; simpa using h
      · right
        simp only [Bool.false_eq_true, if_false]
        constructor
        · push_cast at h1; omega
        · push_cast at h2 ⊢; omega

theorem touchScan_spec (tx ty : Int) : ∀ (zones : List Zone) (s : Nat),
    ((touchScan tx ty s zones).2 = -1 ↔ ∀ (i : Nat) (z : Zone), zones[i]? = some z → ¬ inRect z tx ty) ∧
    (∀ i : Nat, (touchScan tx ty s zones).2 = ((s + i : Nat) : Int) ↔
      ∃ z, zones[i]? = some z ∧ inRect z tx ty ∧
        ∀ (j : Nat) (z1 : Zone), j < i → zones[j]? = some z1 → ¬ inRect z1 tx ty) := by
  intro zones
  induction zones with
  | nil =>
    intro s
    refine ⟨by simp [touchScan], fun i => ?_⟩
    simp only [touchScan, List.getElem?_nil]
    constructor
    · intro h; omega
    · rintro ⟨z, hz, _⟩; cases hz
  | cons z rest ih =>
    intro s
    by_cases hz : hitTest z tx ty = true
    · have hin : inRect z tx ty := (hitTest_iff z tx ty).1 hz
      simp only [touchScan, hz, if_true]
      constructor
      · constructor
        · intro h; omega
        · intro h; exact absurd hin (h 0 z (by simp))
      · intro i
        constructor
        · intro h
          have hi : i = 0 := by omega
          subst hi
          exact ⟨z, by simp, hin, fun j z1 hj => absurd hj (Nat.not_lt_zero j)⟩
        · rintro ⟨z2, hz2, _, hmin⟩
          cases i with
          | zero => simp
          | succ k => exact absurd hin (hmin 0 z (Nat.succ_pos k) (by simp))
    · have hnin : ¬ inRect z tx ty := fun h => hz ((hitTest_iff z tx ty).2 h)
      simp only [touchScan, hz, Bool.false_eq_true, if_false]
      obtain ⟨ih1, ih2⟩ := ih (s + 1)
      constructor
      · rw [ih1]
        constructor
        · intro h i z2 hi
          cases i with
          | zero => simp at hi; subst hi; exact hnin
          | succ k => exact h k z2 (by simpa using hi)
        · intro h i z2 hi
          exact h (i + 1) z2 (by simpa using hi)
      · intro i
        cases i with
        | zero =>
          constructor
          · intro h
            rcases touchScan_range tx ty rest (s + 1) with h1 | ⟨h1, _⟩
            · omega
            · push_cast at h1 h; omega
          · rintro ⟨z2, hz2, hin2, _⟩
            simp at hz2; subst hz2; exact absurd hin2 hnin
        | succ k =>
          have hk := ih2 k
          have e : ((s + 1 + k : Nat) : Int) = ((s + (k + 1) : Nat) : Int) := by
            push_cast; ring
          rw [← e, hk]
          constructor
          · rintro ⟨z2, hz2, hin2, hmin⟩
            refine ⟨z2, by simpa using hz2, hin2, ?_⟩
            intro j z1 hj hz1
            cases j with
            | zero => simp at hz1; subst hz1; exact hnin
            | succ m => exact hmin m z1 (by omega) (by simpa using hz1)
          · rintro ⟨z2, hz2, hin2, hmin⟩
            refine ⟨z2, by simpa using hz2, hin2, ?_⟩
            intro j z1 hj hz1
            exact hmin (j + 1) z1 (by omega) (by simpa using hz1)

/-- C6: `getTouchedZone` returns `-1` exactly when no rectangle of the registry contains the
point under the half-open test (in particular on the empty registry), and it returns the
index `i` exactly when rectangle `i` contains the point and no rectangle of a smaller index
does; so a point contained in rectangle `i` only resolves to `i`. -/
theorem getTouchedZone_first_hit (zones : List Zone) (tx ty : Int) :
    (getTouchedZone zones tx ty = -1 ↔ ∀ (i : Nat) (z : Zone), zones[i]? = some z → ¬ inRect z tx ty) ∧
    (∀ i : Nat, getTouchedZone zones tx ty = (i : Int) ↔
      ∃ z, zones[i]? = some z ∧ inRect z tx ty ∧
        ∀ (j : Nat) (z1 : Zone), j < i → zones[j]? = some z1 → ¬ inRect z1 tx ty) ∧
    getTouchedZone [] tx ty = -1 := by
  have h := touchScan_spec tx ty zones 0
  refine ⟨h.1, fun i => ?_, rfl⟩
  have hi := h.2 i
  simpa [getTouchedZone, getTouchedZoneTraced] using hi

theorem touchScan_reads_lt (tx ty : Int) : ∀ (zones : List Zone) (s k : Nat),
    k ∈ (touchScan tx ty s zones).1 → k < s + zones.length := by
  intro zones
  induction zones with
  | nil => intro s k h; simp [touchScan] at h
  | cons z rest ih =>
    intro s k h
    by_cases hz : hitTest z tx ty = true
    · simp [touchScan, hz] at h
      simp only [List.length_cons]; omega
    · simp only [touchScan, hz, Bool.false_eq_true, if_false, List.mem_cons] at h
      simp only [List.length_cons]
      rcases h with h | h
      · omega
      · have := ih (s + 1) k h
        omega

/-- The reads of `getTouchedZone` stay inside the registry exactly when the registry is empty
or holds at least 16 zones. -/
theorem getTouchedZoneReads_in_range_iff (zones : List Zone) (tx ty : Int) :
    (∀ k ∈ getTouchedZoneReads zones tx ty, k < zones.length) ↔
      (zones = [] ∨ 16 ≤ zones.length) := by
  cases zones with
  | nil => simp [getTouchedZoneReads, getTouchedZoneTraced, touchScan]
  | cons z rest =>
    simp only [getTouchedZoneReads, getTouchedZoneTraced, List.isEmpty_cons, Bool.not_false,
      if_true, List.mem_append, reduceCtorEq, false_or]
    constructor
    · intro h
      have := h 15 (Or.inl (by simp))
      omega
    · intro h k hk
      rcases hk with hk | hk
      · simp at hk
        rcases hk with hk | hk | hk <;> omega
      · have := touchScan_reads_lt tx ty (z :: rest) 0 k hk
        omega

/-- C10, evaluation at the failing input: in the registry that holds the single zone created
by the message `zone-controller/zone1/state`, a touch at the corrected point `(20, 80)` makes
`getTouchedZone` read the indices `0, 1, 15, 0`; the registry has length 1, so the reads at
index 1 and at index 15 are out of range. -/
theorem getTouchedZone_reads_out_of_range :
    (mqttCallback 320 480 BASE_TOPIC [] "zone-controller/zone1/state".toList
        "ON".toList).length = 1 ∧
    getTouchedZoneReads
      (mqttCallback 320 480 BASE_TOPIC [] "zone-controller/zone1/state".toList "ON".toList)
      20 80 = [0, 1, 15, 0] ∧
    ¬ (∀ k ∈ getTouchedZoneReads
        (mqttCallback 320 480 BASE_TOPIC [] "zone-controller/zone1/state".toList "ON".toList)
        20 80,
      k < (mqttCallback 320 480 BASE_TOPIC [] "zone-controller/zone1/state".toList
        "ON".toList).length) := by
  decide

/-! ## Layout: proofs -/

theorem drawZonesFrom_getElem? (cw ch : Int) : ∀ (zones : List Zone) (s k : Nat),
    (drawZonesFrom cw ch s zones)[k]? =
      (zones[k]?).map (fun z =>
        { z with
          x := CARD_PADDING + Int.tmod ((s + k : Nat) : Int) 2 * (cw + CARD_PADDING),
          y := HEADER_HEIGHT + CARD_PADDING + Int.tdiv ((s + k : Nat) : Int) 2 * (ch + CARD_PADDING),
          w := cw, h := ch }) := by
  intro zones
  induction zones with
  | nil => intro s k; simp [drawZonesFrom]
  | cons z rest ih =>
    intro s k
    cases k with
    | zero => simp [drawZonesFrom]
    | succ m =>
      simp only [drawZonesFrom, List.getElem?_cons_succ]
      rw [ih (s + 1) m]
      have e : s + 1 + m = s + (m + 1) := by omega
      rw [e]

theorem drawZonesFrom_length (cw ch : Int) : ∀ (zones : List Zone) (s : Nat),
    (drawZonesFrom cw ch s zones).length = zones.length := by
  intro zones
  induction zones with
  | nil => intro s; rfl
  | cons z rest ih => intro s; simp [drawZonesFrom, ih]

theorem drawAllZones_length (width height : Int) (zones : List Zone) :
    (drawAllZones width height zones).length = zones.length := by
  unfold drawAllZones
  split
  · rfl
  · exact drawZonesFrom_length _ _ _ _

/-- Two cards of the grid with different indices share no point. -/
theorem grid_disjoint (cw ch : Int) (i j : Nat) (hij : i ≠ j) (tx ty : Int)
    (hxi : CARD_PADDING + Int.tmod (i : Int) 2 * (cw + CARD_PADDING) ≤ tx)
    (hxi2 : tx < CARD_PADDING + Int.tmod (i : Int) 2 * (cw + CARD_PADDING) + cw)
    (hyi : HEADER_HEIGHT + CARD_PADDING + Int.tdiv (i : Int) 2 * (ch + CARD_PADDING) ≤ ty)
    (hyi2 : ty < HEADER_HEIGHT + CARD_PADDING + Int.tdiv (i : Int) 2 * (ch + CARD_PADDING) + ch)
    (hxj : CARD_PADDING + Int.tmod (j : Int) 2 * (cw + CARD_PADDING) ≤ tx)
    (hxj2 : tx < CARD_PADDING + Int.tmod (j : Int) 2 * (cw + CARD_PADDING) + cw)
    (hyj : HEADER_HEIGHT + CARD_PADDING + Int.tdiv (j : Int) 2 * (ch + CARD_PADDING) ≤ ty)
    (hyj2 : ty < HEADER_HEIGHT + CARD_PADDING + Int.tdiv (j : Int) 2 * (ch + CARD_PADDING) + ch) :
    False := by
  have ei : Int.tmod (i : Int) 2 = ((i % 2 : Nat) : Int) := (Int.ofNat_tmod i 2).symm
  have ej : Int.tmod (j : Int) 2 = ((j % 2 : Nat) : Int) := (Int.ofNat_tmod j 2).symm
  have di : Int.tdiv (i : Int) 2 = ((i / 2 : Nat) : Int) := (Int.ofNat_tdiv i 2).symm
  have dj : Int.tdiv (j : Int) 2 = ((j / 2 : Nat) : Int) := (Int.ofNat_tdiv j 2).symm
  rw [ei] at hxi hxi2
  rw [ej] at hxj hxj2
  rw [di] at hyi hyi2
  rw [dj] at hyj hyj2
  simp only [CARD_PADDING, HEADER_HEIGHT] at *
  have hcw : 0 < cw := by linarith
  have hch : 0 < ch := by linarith
  rcases Nat.lt_trichotomy (i / 2) (j / 2) with hr | hr | hr
  · have h1 : ((i / 2 : Nat) : Int) + 1 ≤ ((j / 2 : Nat) : Int) := by exact_mod_cast hr
    nlinarith
  · have hc : i % 2 ≠ j % 2 := by omega
    have hi2 : i % 2 = 0 ∨ i % 2 = 1 := by omega
    have hj2 : j % 2 = 0 ∨ j % 2 = 1 := by omega
    rcases hi2 with hi2 | hi2 <;> rcases hj2 with hj2 | hj2
    · omega
    · rw [hi2] at hxi hxi2; rw [hj2] at hxj hxj2
      push_cast at *; linarith
    · rw [hi2] at hxi hxi2; rw [hj2] at hxj hxj2
      push_cast at *; linarith
    · omega
  · have h1 : ((j / 2 : Nat) : Int) + 1 ≤ ((i / 2 : Nat) : Int) := by exact_mod_cast hr
    nlinarith

/-- C7: the layout pass of `drawAllZones` writes one rectangle per zone, none at all on the
empty registry, and for any registry and any surface dimensions no point lies in the half-open
area of the rectangles written at two different indices. -/
theorem drawAllZones_nonoverlapping (width height : Int) (zones : List Zone) :
    (drawAllZones width height zones).length = zones.length ∧
    drawAllZones width height [] = [] ∧
    ∀ (i j : Nat) (zi zj : Zone) (tx ty : Int),
      (drawAllZones width height zones)[i]? = some zi →
      (drawAllZones width height zones)[j]? = some zj →
      i ≠ j → ¬ (inRect zi tx ty ∧ inRect zj tx ty) := by
  refine ⟨drawAllZones_length width height zones, rfl, ?_⟩
  intro i j zi zj tx ty hi hj hij
  cases hemp : zones.isEmpty with
  | true =>
    have : zones = [] := by simpa using hemp
    subst this
    simp [drawAllZones] at hi
  | false =>
    simp only [drawAllZones, hemp, Bool.false_eq_true, if_false] at hi hj
    rw [drawZonesFrom_getElem?] at hi hj
    simp only [Option.map_eq_some'] at hi hj
    obtain ⟨ai, _, rfl⟩ := hi
    obtain ⟨aj, _, rfl⟩ := hj
    rintro ⟨⟨h1, h2, h3, h4⟩, ⟨h5, h6, h7, h8⟩⟩
    simp only [Nat.zero_add] at h1 h2 h3 h4 h5 h6 h7 h8
    exact grid_disjoint _ _ i j hij tx ty h1 h2 h3 h4 h5 h6 h7 h8

/-- Witness for C7: on a 320 by 480 surface with two zones, the cards of index 0 and 1 do not
both contain the point `(10, 60)`. -/
theorem drawAllZones_nonoverlapping_witness :
    (drawAllZones 320 480 (addZones 320 480 [] [(1, []), (2, [])]))[0]? =
        some { name := "Zone 1".toList, isOpen := false, x := 6, y := 54, w := 151, h := 420,
               number := 1 } ∧
    (drawAllZones 320 480 (addZones 320 480 [] [(1, []), (2, [])]))[1]? =
        some { name := "Zone 2".toList, isOpen := false, x := 163, y := 54, w := 151, h := 420,
               number := 2 } ∧
    ¬ (inRect { name := "Zone 1".toList, isOpen := false, x := 6, y := 54, w := 151, h := 420,
                number := 1 } 10 60 ∧
       inRect { name := "Zone 2".toList, isOpen := false, x := 163, y := 54, w := 151, h := 420,
                number := 2 } 10 60) :=
  ⟨by decide, by decide,
    (drawAllZones_nonoverlapping 320 480 (addZones 320 480 [] [(1, []), (2, [])])).2.2 0 1
      _ _ 10 60 (by decide) (by decide) (by decide)⟩

/-! ## Registry: proofs -/

theorem drawZonesFrom_map_number (cw ch : Int) : ∀ (zones : List Zone) (s : Nat),
    (drawZonesFrom cw ch s zones).map (·.number) = zones.map (·.number) := by
  intro zones
  induction zones with
  | nil => intro s; rfl
  | cons z rest ih => intro s; simp [drawZonesFrom, ih]

theorem drawAllZones_map_number (width height : Int) (zones : List Zone) :
    (drawAllZones width height zones).map (·.number) = zones.map (·.number) := by
  unfold drawAllZones
  split
  · rfl
  · exact drawZonesFrom_map_number _ _ _ _

theorem addZoneLoop_eq_none (zoneNumber : Int) (name : AString) : ∀ zones : List Zone,
    addZoneLoop zoneNumber name zones = none ↔ zoneNumber ∉ zones.map (·.number) := by
  intro zones
  induction zones with
  | nil => simp [addZoneLoop]
  | cons z rest ih =>
    by_cases hz : z.number = zoneNumber
    · simp [addZoneLoop, hz]
    · have hz2 : ¬ zoneNumber = z.number := fun h => hz h.symm
      simp [addZoneLoop, hz, hz2, ih]

theorem addZoneLoop_map_number (zoneNumber : Int) (name : AString) :
    ∀ (zones zs : List Zone), addZoneLoop zoneNumber name zones = some zs →
      zs.map (·.number) = zones.map (·.number) := by
  intro zones
  induction zones with
  | nil => intro zs h; simp [addZoneLoop] at h
  | cons z rest ih =>
    intro zs h
    by_cases hz : z.number = zoneNumber
    · simp only [addZoneLoop, hz, if_true, Option.some.injEq] at h
      subst h
      cases hn : name.isEmpty <;> simp [hn, hz]
    · simp only [addZoneLoop, hz, if_false, Option.map_eq_some'] at h
      obtain ⟨zs1, h1, rfl⟩ := h
      simp [ih zs1 h1]

/-- The zone numbers after `addZone`: unchanged when the number is present, otherwise the
number is appended. -/
theorem addZone_map_number (width height : Int) (zones : List Zone) (zoneNumber : Int)
    (name : AString) (isOpen : Bool) :
    (addZone width height zones zoneNumber name isOpen).map (·.number) =
      if zoneNumber ∈ zones.map (·.number) then zones.map (·.number)
      else zones.map (·.number) ++ [zoneNumber] := by
  unfold addZone
  cases h : addZoneLoop zoneNumber name zones with
  | none =>
    have hn := (addZoneLoop_eq_none zoneNumber name zones).1 h
    simp only [hn, if_false]
    rw [drawAllZones_map_number]
    simp
  | some zs =>
    have hn : zoneNumber ∈ zones.map (·.number) := by
      by_contra hc
      rw [(addZoneLoop_eq_none zoneNumber name zones).2 hc] at h
      cases h
    simp only [hn, if_true]
    exact addZoneLoop_map_number zoneNumber name zones zs h

/-- Running the search loop of `addZone` again on its own result changes nothing. -/
theorem addZoneLoop_fixed (zoneNumber : Int) (name : AString) :
    ∀ (zones zs : List Zone), addZoneLoop zoneNumber name zones = some zs →
      addZoneLoop zoneNumber name zs = some zs := by
  intro zones
  induction zones with
  | nil => intro zs h; simp [addZoneLoop] at h
  | cons z rest ih =>
    intro zs h
    by_cases hz : z.number = zoneNumber
    · simp only [addZoneLoop, hz, if_true, Option.some.injEq] at h
      subst h
      cases hn : name.isEmpty <;> simp [addZoneLoop, hn, hz]
    · simp only [addZoneLoop, hz, if_false, Option.map_eq_some'] at h
      obtain ⟨zs1, h1, rfl⟩ := h
      simp [addZoneLoop, hz, ih zs1 h1]

/-- After a new zone was appended and laid out, the search loop of `addZone` finds it and
leaves the registry as it is. -/
theorem addZoneLoop_after_append (zoneNumber : Int) (name : AString) (cw ch : Int)
    (new : Zone) (hnum : new.number = zoneNumber)
    (hname : name.isEmpty = false → new.name = name) :
    ∀ (zones : List Zone) (s : Nat), addZoneLoop zoneNumber name zones = none →
      addZoneLoop zoneNumber name (drawZonesFrom cw ch s (zones ++ [new])) =
        some (drawZonesFrom cw ch s (zones ++ [new])) := by
  intro zones
  induction zones with
  | nil =>
    intro s _
    cases hn : name.isEmpty
    · simp [drawZonesFrom, addZoneLoop, hnum, hn, hname hn]
    · simp [drawZonesFrom, addZoneLoop, hnum, hn]
  | cons z rest ih =>
    intro s h
    by_cases hz : z.number = zoneNumber
    · simp [addZoneLoop, hz] at h
    · simp only [addZoneLoop, hz, if_false, Option.map_eq_none'] at h
      simp [drawZonesFrom, addZoneLoop, hz, ih (s + 1) h]

theorem addZoneLoop_drawAllZones_append (width height : Int) (zoneNumber : Int)
    (name : AString) (new : Zone) (hnum : new.number = zoneNumber)
    (hname : name.isEmpty = false → new.name = name) (zones : List Zone)
    (h : addZoneLoop zoneNumber name zones = none) :
    addZoneLoop zoneNumber name (drawAllZones width height (zones ++ [new])) =
      some (drawAllZones width height (zones ++ [new])) := by
  have hne : (zones ++ [new]).isEmpty = false := by cases zones <;> rfl
  simp only [drawAllZones, hne, Bool.false_eq_true, if_false]
  exact addZoneLoop_after_append zoneNumber name _ _ new hnum hname zones 0 h

/-- C8: for every registry, number, name and initial state, a second `addZone` call with the
same arguments leaves the registry exactly as the first call left it. -/
theorem addZone_idempotent (width height : Int) (zones : List Zone) (zoneNumber : Int)
    (name : AString) (isOpen : Bool) :
    addZone width height (addZone width height zones zoneNumber name isOpen)
        zoneNumber name isOpen =
      addZone width height zones zoneNumber name isOpen := by
  cases h : addZoneLoop zoneNumber name zones with
  | some zs =>
    have h1 : addZone width height zones zoneNumber name isOpen = zs := by
      simp [addZone, h]
    rw [h1]
    simp [addZone, addZoneLoop_fixed zoneNumber name zones zs h]
  | none =>
    have key := addZoneLoop_drawAllZones_append width height zoneNumber name
      { name := if name.isEmpty then "Zone ".toList ++ intToString zoneNumber else name,
        isOpen := isOpen, x := 0, y := 0, w := 0, h := 0, number := zoneNumber }
      rfl (by intro hn; simp [hn]) zones h
    simp only [addZone, h, key]

theorem mem_firstOccurrences (a : Int) : ∀ ids : List Int,
    a ∈ firstOccurrences ids ↔ a ∈ ids := by
  intro ids
  induction ids with
  | nil => simp [firstOccurrences]
  | cons b rest ih =>
    simp only [firstOccurrences, List.mem_cons, List.mem_filter, ih, bne_iff_ne, ne_eq]
    by_cases hab : a = b
    · simp [hab]
    · simp [hab]

theorem firstOccurrences_pairwise : ∀ ids : List Int,
    (firstOccurrences ids).Pairwise (fun a b => List.indexOf a ids < List.indexOf b ids) := by
  intro ids
  induction ids with
  | nil => simp [firstOccurrences]
  | cons c rest ih =>
    simp only [firstOccurrences, List.pairwise_cons]
    constructor
    · intro b hb
      have hbc : b ≠ c := by
        have := (List.mem_filter.1 hb).2
        simpa using this
      rw [List.indexOf_cons_self, List.indexOf_cons_ne _ (fun h => hbc h.symm)]
      exact Nat.succ_pos _
    · refine List.Pairwise.imp_of_mem ?_ (List.Pairwise.filter _ ih)
      intro a b ha hb hlt
      have hac : a ≠ c := by
        have := (List.mem_filter.1 ha).2
        simpa using this
      have hbc : b ≠ c := by
        have := (List.mem_filter.1 hb).2
        simpa using this
      rw [List.indexOf_cons_ne _ (fun h => hac h.symm),
        List.indexOf_cons_ne _ (fun h => hbc h.symm)]
      exact Nat.succ_lt_succ hlt

theorem firstOccurrences_nodup (ids : List Int) : (firstOccurrences ids).Nodup := by
  have h := firstOccurrences_pairwise ids
  refine List.Pairwise.imp ?_ h
  intro a b hlt hab
  subst hab
  exact Nat.lt_irrefl _ hlt

theorem addZones_map_number (width height : Int) :
    ∀ (calls : List (Int × AString)) (zones : List Zone),
      (addZones width height zones calls).map (·.number) =
        zones.map (·.number) ++
          (firstOccurrences (calls.map (·.1))).filter
            (fun b => decide (b ∉ zones.map (·.number))) := by
  intro calls
  induction calls with
  | nil => intro zones; simp [addZones, firstOccurrences]
  | cons c rest ih =>
    intro zones
    have hstep : addZones width height zones (c :: rest) =
        addZones width height (addZone width height zones c.1 c.2 false) rest := rfl
    rw [hstep, ih, addZone_map_number]
    simp only [List.map_cons, firstOccurrences, List.filter_cons]
    by_cases hc : c.1 ∈ zones.map (·.number)
    · simp only [hc, if_true, not_true_eq_false, decide_False, Bool.false_eq_true, if_false,
        List.filter_filter]
      congr 1
      apply List.filter_congr
      intro b _
      by_cases hb : b ∈ zones.map (·.number)
      · simp [hb]
      · have hbc : b ≠ c.1 := fun h => hb (h ▸ hc)
        simp [hb, hbc]
    · simp only [hc, if_false, not_false_eq_true, decide_True, if_true, List.filter_filter,
        List.append_assoc, List.singleton_append]
      congr 2
      apply List.filter_congr
      intro b _
      by_cases hbc : b = c.1
      · simp [hbc]
      · by_cases hb : b ∈ zones.map (·.number)
        · simp [hb, hbc]
        · simp [hb, hbc]

/-- C1: after any sequence of `addZone(id, name)` calls on the empty registry, the zone numbers
in the registry are the distinct ids of the sequence in order of first occurrence: the list
has no duplicate, holds exactly the ids of the sequence, and lists them by increasing position
of their first occurrence. -/
theorem addZones_first_occurrence_order (width height : Int) (calls : List (Int × AString)) :
    (addZones width height [] calls).map (·.number) = firstOccurrences (calls.map (·.1)) ∧
    ((addZones width height [] calls).map (·.number)).Nodup ∧
    (∀ id : Int, id ∈ (addZones width height [] calls).map (·.number) ↔
      id ∈ calls.map (·.1)) ∧
    ((addZones width height [] calls).map (·.number)).Pairwise
      (fun a b => List.indexOf a (calls.map (·.1)) < List.indexOf b (calls.map (·.1))) := by
  have h : (addZones width height [] calls).map (·.number) =
      firstOccurrences (calls.map (·.1)) := by
    rw [addZones_map_number]
    simp
  rw [h]
  exact ⟨rfl, firstOccurrences_nodup _, fun id => mem_firstOccurrences id _,
    firstOccurrences_pairwise _⟩

/-! ## Rectangles in reachable states -/

theorem layoutRows_eq (n : Nat) : layoutRows n = (n + 1) / 2 := by
  unfold layoutRows; omega

theorem drawAllZones_map_rect (width height : Int) (zones : List Zone) :
    (drawAllZones width height zones).map Zone.rect =
      (List.range zones.length).map
        (layoutRect width height HEADER_HEIGHT CARD_PADDING zones.length) := by
  cases hemp : zones.isEmpty with
  | true =>
    have : zones = [] := by simpa using hemp
    subst this
    simp [drawAllZones]
  | false =>
    simp only [drawAllZones, hemp, Bool.false_eq_true, if_false]
    apply List.ext_getElem?
    intro k
    rw [List.getElem?_map, drawZonesFrom_getElem?, List.getElem?_map]
    by_cases hk : k < zones.length
    · rw [List.getElem?_range hk]
      obtain ⟨z, hz⟩ : ∃ z, zones[k]? = some z := ⟨zones[k], List.getElem?_eq_getElem hk⟩
      rw [hz]
      simp only [Option.map_some', Zone.rect, layoutRect, layoutRows_eq, Nat.zero_add,
        Int.ofNat_tmod, Int.ofNat_tdiv]
      rfl
    · have h1 : zones[k]? = none := List.getElem?_eq_none (by omega)
      have h2 : (List.range zones.length)[k]? = none :=
        List.getElem?_eq_none (by simp; omega)
      rw [h1, h2]
      rfl

theorem setStateLoop_map_rect (zoneNumber : Int) (v : Bool) : ∀ zones : List Zone,
    (setStateLoop zoneNumber v zones).map Zone.rect = zones.map Zone.rect := by
  intro zones
  induction zones with
  | nil => rfl
  | cons z rest ih =>
    by_cases hz : z.number = zoneNumber
    · simp [setStateLoop, hz, Zone.rect]
    · simp [setStateLoop, hz, ih]

theorem setNameLoop_map_rect (zoneNumber : Int) (p : AString) : ∀ zones : List Zone,
    (setNameLoop zoneNumber p zones).map Zone.rect = zones.map Zone.rect := by
  intro zones
  induction zones with
  | nil => rfl
  | cons z rest ih =>
    by_cases hz : z.number = zoneNumber
    · simp [setNameLoop, hz, Zone.rect]
    · simp [setNameLoop, hz, ih]

theorem addZoneLoop_map_rect (zoneNumber : Int) (name : AString) :
    ∀ (zones zs : List Zone), addZoneLoop zoneNumber name zones = some zs →
      zs.map Zone.rect = zones.map Zone.rect := by
  intro zones
  induction zones with
  | nil => intro zs h; simp [addZoneLoop] at h
  | cons z rest ih =>
    intro zs h
    by_cases hz : z.number = zoneNumber
    · simp only [addZoneLoop, hz, if_true, Option.some.injEq] at h
      subst h
      cases hn : name.isEmpty <;> simp [hn, Zone.rect]
    · simp only [addZoneLoop, hz, if_false, Option.map_eq_some'] at h
      obtain ⟨zs1, h1, rfl⟩ := h
      simp [ih zs1 h1]

theorem LaidOut_of_map_rect (width height : Int) (zones zs : List Zone)
    (h : zs.map Zone.rect = zones.map Zone.rect) (hl : LaidOut width height zones) :
    LaidOut width height zs := by
  have hlen : zs.length = zones.length := by
    have := congrArg List.length h
    simpa using this
  unfold LaidOut at *
  rw [h, hlen, hl]

theorem addZone_LaidOut (width height : Int) (zones : List Zone) (zoneNumber : Int)
    (name : AString) (isOpen : Bool) (hl : LaidOut width height zones) :
    LaidOut width height (addZone width height zones zoneNumber name isOpen) := by
  unfold addZone
  cases h : addZoneLoop zoneNumber name zones with
  | some zs =>
    exact LaidOut_of_map_rect width height zones zs
      (addZoneLoop_map_rect zoneNumber name zones zs h) hl
  | none =>
    simp only
    unfold LaidOut
    rw [drawAllZones_map_rect, drawAllZones_length]

theorem mqttCallback_LaidOut (width height : Int) (base : AString) (zones : List Zone)
    (t p : AString) (hl : LaidOut width height zones) :
    LaidOut width height (mqttCallback width height base zones t p) := by
  unfold mqttCallback
  simp only
  split
  · split
    · exact LaidOut_of_map_rect _ _ _ _ (setStateLoop_map_rect _ _ _)
        (addZone_LaidOut _ _ _ _ _ _ hl)
    · split
      · exact LaidOut_of_map_rect _ _ _ _ (setNameLoop_map_rect _ _ _)
          (addZone_LaidOut _ _ _ _ _ _ hl)
      · exact hl
  · exact hl

theorem set_isOpen_map_rect (zones : List Zone) (k : Nat) (z : Zone) (b : Bool)
    (hz : zones[k]? = some z) :
    (zones.set k { z with isOpen := b }).map Zone.rect = zones.map Zone.rect := by
  apply List.ext_getElem?
  intro n
  rw [List.getElem?_map, List.getElem?_map, List.getElem?_set]
  by_cases hkn : k = n
  · subst hkn
    have hlt : k < zones.length := by
      by_contra hc
      rw [List.getElem?_eq_none (by omega)] at hz
      cases hz
    simp [hlt, hz, Zone.rect]
  · simp [hkn]

theorem loopTouch_LaidOut (width height : Int) (base : AString) (zones : List Zone)
    (px py : Nat) (hl : LaidOut width height zones) :
    LaidOut width height (loopTouch base zones px py).1 := by
  unfold loopTouch
  simp only
  split
  · cases hz : zones[(getTouchedZone zones (320 - (px : Int)) (480 - (py : Int))).toNat]? with
    | none => simpa using hl
    | some z =>
      simp only
      exact LaidOut_of_map_rect _ _ _ _ (set_isOpen_map_rect zones _ z _ hz) hl
  · exact hl

theorem Reachable_LaidOut (width height : Int) (base : AString) (zones : List Zone)
    (hr : Reachable width height base zones) : LaidOut width height zones := by
  induction hr with
  | init => simp [LaidOut]
  | message zones t p _ ih => exact mqttCallback_LaidOut width height base zones t p ih
  | touch zones px py _ ih => exact loopTouch_LaidOut width height base zones px py ih

/-- C9: in every state reachable from the empty registry by inbound messages and touches on a
surface of fixed dimensions, the rectangle stored in the zone at index `i` is the rectangle of
the 2-column layout formula for index `i` and the current zone count. -/
theorem reachable_rect_is_layout (width height : Int) (base : AString) (zones : List Zone)
    (hr : Reachable width height base zones) (i : Nat) (z : Zone)
    (hz : zones[i]? = some z) :
    z.rect = layoutRect width height HEADER_HEIGHT CARD_PADDING zones.length i := by
  have hl := Reachable_LaidOut width height base zones hr
  have hlt : i < zones.length := by
    by_contra hc
    rw [List.getElem?_eq_none (by omega)] at hz
    cases hz
  have h1 : (zones.map Zone.rect)[i]? = some z.rect := by
    rw [List.getElem?_map, hz]; rfl
  rw [hl, List.getElem?_map, List.getElem?_range hlt] at h1
  simpa using h1.symm

/-- Witness for C9: after the messages `zone7/state ON` and `zone3/name Kitchen` and a touch on
the first card, the zone at index 1 carries the rectangle of the layout for two zones. -/
theorem reachable_rect_is_layout_witness :
    (loopTouch BASE_TOPIC
      (mqttCallback 320 480 BASE_TOPIC
        (mqttCallback 320 480 BASE_TOPIC [] "zone-controller/zone7/state".toList "ON".toList)
        "zone-controller/zone3/name".toList "Kitchen".toList) 300 400).1[1]? =
      some { name := "Kitchen".toList, isOpen := false, x := 163, y := 54, w := 151, h := 420,
             number := 3 } ∧
    Zone.rect { name := "Kitchen".toList, isOpen := false, x := 163, y := 54, w := 151,
                h := 420, number := 3 } =
      layoutRect 320 480 HEADER_HEIGHT CARD_PADDING
        (loopTouch BASE_TOPIC
          (mqttCallback 320 480 BASE_TOPIC
            (mqttCallback 320 480 BASE_TOPIC [] "zone-controller/zone7/state".toList
              "ON".toList)
            "zone-controller/zone3/name".toList "Kitchen".toList) 300 400).1.length 1 :=
  ⟨by decide,
    reachable_rect_is_layout 320 480 BASE_TOPIC _
      (Reachable.touch _ 300 400
        (Reachable.message _ "zone-controller/zone3/name".toList "Kitchen".toList
          (Reachable.message [] "zone-controller/zone7/state".toList "ON".toList
            Reachable.init)))
      1 _ (by decide)⟩

/-! ## Decimal numbers -/

theorem digitChar_cases (d : Nat) :
    digitChar d = '0' ∨ digitChar d = '1' ∨ digitChar d = '2' ∨ digitChar d = '3' ∨
    digitChar d = '4' ∨ digitChar d = '5' ∨ digitChar d = '6' ∨ digitChar d = '7' ∨
    digitChar d = '8' ∨ digitChar d = '9' := by
  unfold digitChar
  split <;> simp

theorem digitVal_digitChar (d : Nat) (hd : d < 10) : digitVal (digitChar d) = some d := by
  interval_cases d <;> decide

theorem decDigitsFuel_isDigit : ∀ (fuel n : Nat) (c : Char),
    c ∈ decDigitsFuel fuel n → isDigit c := by
  intro fuel
  induction fuel with
  | zero => intro n c h; simp [decDigitsFuel] at h
  | succ f ih =>
    intro n c h
    unfold decDigitsFuel at h
    split at h
    · simp only [List.mem_singleton] at h
      subst h
      exact digitChar_cases n
    · simp only [List.mem_append, List.mem_singleton] at h
      rcases h with h | h
      · exact ih _ c h
      · subst h
        exact digitChar_cases _

theorem decDigitsFuel_ne_nil (fuel n : Nat) : decDigitsFuel (fuel + 1) n ≠ [] := by
  unfold decDigitsFuel
  split <;> simp

theorem parseDigits_decDigitsFuel : ∀ (fuel n : Nat), n < fuel → ∀ rest : AString,
    parseDigits (decDigitsFuel fuel n ++ rest) 0 = parseDigits rest n := by
  intro fuel
  induction fuel with
  | zero => intro n h; omega
  | succ f ih =>
    intro n hn rest
    unfold decDigitsFuel
    split
    · rename_i h10
      simp [parseDigits, digitVal_digitChar n h10]
    · rename_i h10
      rw [List.append_assoc, ih (n / 10) (by omega)]
      simp only [List.singleton_append, parseDigits,
        digitVal_digitChar (n % 10) (Nat.mod_lt _ (by decide))]
      congr 1
      omega

theorem natToString_isDigit (n : Nat) (c : Char) (h : c ∈ natToString n) : isDigit c :=
  decDigitsFuel_isDigit _ _ c h

theorem natToString_ne_nil (n : Nat) : natToString n ≠ [] := decDigitsFuel_ne_nil n n

theorem parseDigits_natToString (n : Nat) (rest : AString) :
    parseDigits (natToString n ++ rest) 0 = parseDigits rest n :=
  parseDigits_decDigitsFuel (n + 1) n (Nat.lt_succ_self n) rest

theorem intToString_of_pos (n : Int) (hn : 0 < n) : intToString n = natToString n.natAbs := by
  unfold intToString
  rw [if_neg (by omega)]

/-! ## Topic routing: proofs -/

/-- C5: a message whose topic is not `{base}/zone{N}/state` or `{base}/zone{N}/name` for a
positive integer `N` written in decimal is ignored by `mqttCallback`: the registry afterwards
is the registry before, so no zone is added and no name, state, order or rectangle changes. -/
theorem mqttCallback_malformed_ignored (width height : Int) (base : AString)
    (zones : List Zone) (t p : AString)
    (hbad : ∀ n : Int, 0 < n →
      t ≠ base ++ "/zone".toList ++ intToString n ++ "/state".toList ∧
      t ≠ base ++ "/zone".toList ++ intToString n ++ "/name".toList) :
    mqttCallback width height base zones t p = zones := by
  unfold mqttCallback
  simp only
  split
  · rename_i hpos
    have h := hbad (extractZoneNumber base t) hpos
    rw [if_neg h.1, if_neg h.2]
  · rfl

theorem isDigit_ne_X (c : Char) (h : isDigit c) : c ≠ 'X' := by
  rcases h with h | h | h | h | h | h | h | h | h | h <;> subst h <;> decide

/-- Witness for C5: the topic `zone-controller/zoneX/state` is not of the form for any positive
`N`, and a message on it leaves a registry with one zone unchanged. -/
theorem mqttCallback_malformed_ignored_witness :
    (∀ n : Int, 0 < n →
      "zone-controller/zoneX/state".toList ≠
        BASE_TOPIC ++ "/zone".toList ++ intToString n ++ "/state".toList ∧
      "zone-controller/zoneX/state".toList ≠
        BASE_TOPIC ++ "/zone".toList ++ intToString n ++ "/name".toList) ∧
    mqttCallback 320 480 BASE_TOPIC
        [{ name := "Zone 7".toList, isOpen := true, x := 6, y := 54, w := 151, h := 420,
           number := 7 }]
        "zone-controller/zoneX/state".toList "ON".toList =
      [{ name := "Zone 7".toList, isOpen := true, x := 6, y := 54, w := 151, h := 420,
         number := 7 }] := by
  have hbad : ∀ n : Int, 0 < n →
      "zone-controller/zoneX/state".toList ≠
        BASE_TOPIC ++ "/zone".toList ++ intToString n ++ "/state".toList ∧
      "zone-controller/zoneX/state".toList ≠
        BASE_TOPIC ++ "/zone".toList ++ intToString n ++ "/name".toList := by
    intro n hn
    rw [intToString_of_pos n hn]
    have hne := natToString_ne_nil n.natAbs
    have hd := natToString_isDigit n.natAbs
    cases hs : natToString n.natAbs with
    | nil => exact absurd hs hne
    | cons c tl =>
      have hc : c ≠ 'X' := isDigit_ne_X c (hd c (by rw [hs]; simp))
      have hc2 : ¬ 'X' = c := fun h => hc h.symm
      constructor <;> simp [BASE_TOPIC, hc2]
  exact ⟨hbad, mqttCallback_malformed_ignored 320 480 BASE_TOPIC _ _ _ hbad⟩

theorem startsWith_append (a b : AString) : startsWith (a ++ b) a = true := by
  induction a with
  | nil => cases b <;> rfl
  | cons c a ih => simp [startsWith, ih]

theorem substringFrom_append (a b : AString) : substringFrom (a ++ b) a.length = b := by
  unfold substringFrom substring
  simp only [List.length_append]
  by_cases hb : b = []
  · subst hb; simp
  · have hpos : 0 < b.length := List.length_pos.2 hb
    have h1 : ¬ a.length > a.length + b.length := by omega
    simp only [h1, if_false]
    have h2 : ¬ a.length ≥ a.length + b.length := by omega
    simp only [h2, if_false, gt_iff_lt, lt_self_iff_false]
    simp

theorem substring_zero_append (a b : AString) (ha : a ≠ []) :
    substring (a ++ b) 0 a.length = a := by
  unfold substring
  have hpos : 0 < a.length := List.length_pos.2 ha
  have h1 : ¬ 0 > a.length := by omega
  simp only [h1, if_false, List.length_append]
  have h2 : ¬ 0 ≥ a.length + b.length := by omega
  have h3 : ¬ a.length > a.length + b.length := by omega
  simp only [h2, h3, if_false]
  simp

theorem findFrom_slash (suffix : AString) : ∀ ds : AString, (∀ c ∈ ds, c ≠ '/') →
    findFrom ['/'] (ds ++ '/' :: suffix) = some ds.length := by
  intro ds
  induction ds with
  | nil => intro _; simp [findFrom, startsWith]
  | cons c ds ih =>
    intro h
    have hc : c ≠ '/' := h c (by simp)
    have ih2 := ih (fun d hd => h d (by simp [hd]))
    simp [findFrom, startsWith, hc, ih2]

theorem indexOf_slash (suffix ds : AString) (h : ∀ c ∈ ds, c ≠ '/') :
    indexOf (ds ++ '/' :: suffix) ['/'] = (ds.length : Int) := by
  unfold indexOf
  rw [findFrom_slash suffix ds h]
  simp

theorem isDigit_ne_slash (c : Char) (h : isDigit c) : c ≠ '/' := by
  rcases h with h | h | h | h | h | h | h | h | h | h <;> subst h <;> decide

theorem decDigitsFuel_length_le : ∀ (fuel n k : Nat), n < 10 ^ (k + 1) →
    (decDigitsFuel fuel n).length ≤ k + 1 := by
  intro fuel
  induction fuel with
  | zero => intro n k _; simp [decDigitsFuel]
  | succ f ih =>
    intro n k hn
    unfold decDigitsFuel
    split
    · simp
    · rename_i h10
      cases k with
      | zero => simp at hn; omega
      | succ k1 =>
        have hdiv : n / 10 < 10 ^ (k1 + 1) := by
          rw [Nat.div_lt_iff_lt_mul (by decide)]
          calc n < 10 ^ (k1 + 1 + 1) := hn
            _ = 10 ^ (k1 + 1) * 10 := by ring
        have := ih (n / 10) k1 hdiv
        simp only [List.length_append, List.length_singleton]
        omega

theorem toInt_digits (c : Char) (tl : AString) (hc : isDigit c) :
    toInt (c :: tl) = clampLong (parseDigits (c :: tl) 0 : Int) := by
  rcases hc with h | h | h | h | h | h | h | h | h | h <;> subst h <;>
    simp [toInt, List.dropWhile, isSpace]

theorem toInt_natToString (n : Nat) (hn : n ≤ 2147483647) : toInt (natToString n) = n := by
  have hne := natToString_ne_nil n
  have hd := natToString_isDigit n
  have hp := parseDigits_natToString n []
  rw [List.append_nil] at hp
  cases hs : natToString n with
  | nil => exact absurd hs hne
  | cons c tl =>
    rw [hs] at hp
    rw [toInt_digits c tl (hd c (by rw [hs]; simp)), hp]
    simp only [parseDigits, clampLong]
    rw [if_neg (by omega), if_neg (by omega)]

theorem BASE_TOPIC_chars :
    BASE_TOPIC = ['z', 'o', 'n', 'e', '-', 'c', 'o', 'n', 't', 'r', 'o', 'l', 'l', 'e', 'r'] := by
  rfl

/-- The zone number extraction of `mqttCallback` recovers `n` from a topic
`zone-controller/zone{n}/...`. -/
theorem extractZoneNumber_canonical (n : Nat) (hn : n ≤ 2147483647) (suffix : AString) :
    extractZoneNumber BASE_TOPIC
      (BASE_TOPIC ++ "/zone".toList ++ natToString n ++ '/' :: suffix) = (n : Int) := by
  have hne := natToString_ne_nil n
  have hslash : ∀ c ∈ natToString n, c ≠ '/' :=
    fun c hc => isDigit_ne_slash c (natToString_isDigit n c hc)
  have hlen : (natToString n).length ≤ 10 :=
    decDigitsFuel_length_le (n + 1) n 9 (by omega)
  have hstart : startsWith (BASE_TOPIC ++ "/zone".toList ++ natToString n ++ '/' :: suffix)
      (BASE_TOPIC ++ "/zone".toList) = true := by
    rw [List.append_assoc (BASE_TOPIC ++ "/zone".toList)]
    exact startsWith_append _ _
  have hidx1 : indexOf (BASE_TOPIC ++ "/zone".toList ++ natToString n ++ '/' :: suffix)
      "/".toList = 15 := by
    simp [BASE_TOPIC_chars, indexOf, findFrom, startsWith]
  have hidx2 : indexOf (BASE_TOPIC ++ "/zone".toList ++ natToString n ++ '/' :: suffix)
      "/zone".toList = 15 := by
    simp [BASE_TOPIC_chars, indexOf, findFrom, startsWith]
  have hsub : substringFrom (BASE_TOPIC ++ "/zone".toList ++ natToString n ++ '/' :: suffix)
      20 = natToString n ++ '/' :: suffix := by
    have := substringFrom_append (BASE_TOPIC ++ "/zone".toList) (natToString n ++ '/' :: suffix)
    rw [← List.append_assoc] at this
    exact this
  unfold extractZoneNumber
  rw [hstart, hidx1, hidx2]
  simp only [Bool.true_and]
  have h20 : toUnsigned (15 + 5) = 20 := by decide
  rw [if_pos (by decide), h20, hsub]
  have hslash2 : indexOf (natToString n ++ '/' :: suffix) "/".toList =
      ((natToString n).length : Int) := indexOf_slash suffix (natToString n) hslash
  rw [hslash2]
  have hu : toUnsigned ((natToString n).length : Int) = (natToString n).length := by
    unfold toUnsigned
    omega
  rw [hu, substring_zero_append _ _ hne]
  exact toInt_natToString n hn

theorem setStateLoop_map_number (zoneNumber : Int) (v : Bool) : ∀ zones : List Zone,
    (setStateLoop zoneNumber v zones).map (·.number) = zones.map (·.number) := by
  intro zones
  induction zones with
  | nil => rfl
  | cons z rest ih =>
    by_cases hz : z.number = zoneNumber
    · simp [setStateLoop, hz]
    · simp [setStateLoop, hz, ih]

theorem setStateLoop_find (zoneNumber : Int) (v : Bool) : ∀ zones : List Zone,
    zoneNumber ∈ zones.map (·.number) →
      ∃ z, (setStateLoop zoneNumber v zones).find? (fun z => z.number == zoneNumber) = some z ∧
        z.isOpen = v := by
  intro zones
  induction zones with
  | nil => intro h; simp at h
  | cons z rest ih =>
    intro h
    by_cases hz : z.number = zoneNumber
    · exact ⟨{ z with isOpen := v }, by simp [setStateLoop, hz], rfl⟩
    · have hmem : zoneNumber ∈ rest.map (·.number) := by
        simp only [List.map_cons, List.mem_cons] at h
        rcases h with h | h
        · exact absurd h.symm hz
        · exact h
      obtain ⟨z1, h1, h2⟩ := ih hmem
      exact ⟨z1, by simp [setStateLoop, hz, h1], h2⟩

theorem setStateLoop_getElem?_other (zoneNumber : Int) (v : Bool) :
    ∀ (zones : List Zone) (i : Nat) (z : Zone), zones[i]? = some z → z.number ≠ zoneNumber →
      (setStateLoop zoneNumber v zones)[i]? = some z := by
  intro zones
  induction zones with
  | nil => intro i z h; simp at h
  | cons z0 rest ih =>
    intro i z h hne
    by_cases hz : z0.number = zoneNumber
    · cases i with
      | zero =>
        simp at h
        subst h
        exact absurd hz hne
      | succ k => simpa [setStateLoop, hz] using h
    · cases i with
      | zero => simpa [setStateLoop, hz] using h
      | succ k =>
        simp only [setStateLoop, hz, if_false, List.getElem?_cons_succ] at h ⊢
        exact ih k z h hne

theorem addZoneLoop_getElem? (zoneNumber : Int) (name : AString) :
    ∀ (zones zs : List Zone), addZoneLoop zoneNumber name zones = some zs →
      ∀ (i : Nat) (z : Zone), zones[i]? = some z →
        ∃ z1, zs[i]? = some z1 ∧ z1.number = z.number ∧ z1.isOpen = z.isOpen ∧
          (z.number ≠ zoneNumber → z1.name = z.name) := by
  intro zones
  induction zones with
  | nil => intro zs h; simp [addZoneLoop] at h
  | cons z0 rest ih =>
    intro zs h i z hi
    by_cases hz : z0.number = zoneNumber
    · simp only [addZoneLoop, hz, if_true, Option.some.injEq] at h
      subst h
      cases i with
      | zero =>
        simp at hi
        subst hi
        refine ⟨_, List.getElem?_cons_zero, ?_, ?_, ?_⟩
        · cases name.isEmpty <;> simp [hz]
        · cases name.isEmpty <;> simp
        · intro hne; exact absurd hz hne
      | succ k => exact ⟨z, by simpa using hi, rfl, rfl, fun _ => rfl⟩
    · simp only [addZoneLoop, hz, if_false, Option.map_eq_some'] at h
      obtain ⟨zs1, h1, rfl⟩ := h
      cases i with
      | zero =>
        simp at hi
        subst hi
        exact ⟨z0, by simp, rfl, rfl, fun _ => rfl⟩
      | succ k =>
        obtain ⟨z1, hz1, hrest⟩ := ih zs1 h1 k z (by simpa using hi)
        exact ⟨z1, by simpa using hz1, hrest⟩

/-- A zone that is in the registry before `addZone` is at the same index afterwards, with the
same number and state, and with the same name unless it is the zone that is addressed. -/
theorem addZone_getElem? (width height : Int) (zones : List Zone) (zoneNumber : Int)
    (name : AString) (isOpen : Bool) (i : Nat) (z : Zone) (hi : zones[i]? = some z) :
    ∃ z1, (addZone width height zones zoneNumber name isOpen)[i]? = some z1 ∧
      z1.number = z.number ∧ z1.isOpen = z.isOpen ∧
      (z.number ≠ zoneNumber → z1.name = z.name) := by
  unfold addZone
  cases h : addZoneLoop zoneNumber name zones with
  | some zs => exact addZoneLoop_getElem? zoneNumber name zones zs h i z hi
  | none =>
    have hlt : i < zones.length := by
      by_contra hc
      rw [List.getElem?_eq_none (by omega)] at hi
      cases hi
    have hne : ∀ new : Zone, (zones ++ [new]).isEmpty = false := by
      intro new; cases zones <;> rfl
    simp only [drawAllZones, hne, Bool.false_eq_true, if_false]
    rw [drawZonesFrom_getElem?, List.getElem?_append_left hlt, hi]
    exact ⟨_, rfl, rfl, rfl, fun _ => rfl⟩

theorem equalsCStr_ON (p : AString) :
    equalsCStr p "ON".toList = true ↔
      p.takeWhile (fun c => c != Char.ofNat 0) = "ON".toList := by
  have hlit : cString "ON".toList = "ON".toList := by decide
  unfold equalsCStr
  cases p with
  | nil => rw [hlit]; decide
  | cons c rest =>
    rw [hlit]
    simp [cString]

theorem takeWhile_ne_nul (p : AString) (h : Char.ofNat 0 ∉ p) :
    p.takeWhile (fun c => c != Char.ofNat 0) = p := by
  induction p with
  | nil => rfl
  | cons c rest ih =>
    have hc : c ≠ Char.ofNat 0 := fun e => h (by simp [e])
    have hr : Char.ofNat 0 ∉ rest := fun e => h (by simp [e])
    have hb : (c != Char.ofNat 0) = true := by simpa using hc
    rw [List.takeWhile_cons, hb, if_pos rfl, ih hr]

/-- C4 as stated fails: on the empty registry, the message `zone-controller/zone7/state` whose
payload is the three bytes `O`, `N`, NUL is not the payload `ON`, and yet zone 7 is open
afterwards, because the comparison with the literal stops at the NUL byte. -/
theorem mqttCallback_state_nul_payload :
    ['O', 'N', Char.ofNat 0] ≠ "ON".toList ∧
    mqttCallback 320 480 BASE_TOPIC [] "zone-controller/zone7/state".toList
        ['O', 'N', Char.ofNat 0] =
      [{ name := "Zone 7".toList, isOpen := true, x := 6, y := 54, w := 151, h := 420,
         number := 7 }] ∧
    ¬ (∀ z : Zone,
        (mqttCallback 320 480 BASE_TOPIC [] "zone-controller/zone7/state".toList
          ['O', 'N', Char.ofNat 0]).find? (fun z => z.number == 7) = some z →
        (z.isOpen = true ↔ ['O', 'N', Char.ofNat 0] = "ON".toList)) := by
  refine ⟨by decide, by decide, ?_⟩
  intro h
  have h1 := h { name := "Zone 7".toList, isOpen := true, x := 6, y := 54, w := 151, h := 420,
                 number := 7 } (by decide)
  exact absurd (h1.1 rfl) (by decide)

/-- C4, amended: for every registry, every zone number `N` with `0 < N` in the range of `int`
and every payload `p`, after `mqttCallback` handles the topic `zone-controller/zone{N}/state`
the zone numbers of the registry are the ones before, with `N` appended if it was absent; the
zone with number `N` is open if and only if the bytes of `p` before its first NUL byte are
exactly `ON`, so for a payload without NUL byte if and only if `p` is exactly `ON`; and every
zone with another number keeps its index, number, name and state. -/
theorem mqttCallback_state_message (width height : Int) (zones : List Zone) (N : Int)
    (hpos : 0 < N) (hmax : N ≤ 2147483647) (p : AString) :
    (mqttCallback width height BASE_TOPIC zones
        (BASE_TOPIC ++ "/zone".toList ++ intToString N ++ "/state".toList) p).map (·.number) =
      (if N ∈ zones.map (·.number) then zones.map (·.number)
       else zones.map (·.number) ++ [N]) ∧
    (∃ z, (mqttCallback width height BASE_TOPIC zones
        (BASE_TOPIC ++ "/zone".toList ++ intToString N ++ "/state".toList) p).find?
          (fun z => z.number == N) = some z ∧
      (z.isOpen = true ↔ p.takeWhile (fun c => c != Char.ofNat 0) = "ON".toList) ∧
      (Char.ofNat 0 ∉ p → (z.isOpen = true ↔ p = "ON".toList))) ∧
    (∀ (i : Nat) (z : Zone), zones[i]? = some z → z.number ≠ N →
      ∃ z1, (mqttCallback width height BASE_TOPIC zones
          (BASE_TOPIC ++ "/zone".toList ++ intToString N ++ "/state".toList) p)[i]? = some z1 ∧
        z1.number = z.number ∧ z1.name = z.name ∧ z1.isOpen = z.isOpen) := by
  have hnat : ((N.natAbs : Nat) : Int) = N := by omega
  have hext : extractZoneNumber BASE_TOPIC
      (BASE_TOPIC ++ "/zone".toList ++ intToString N ++ "/state".toList) = N := by
    rw [intToString_of_pos N hpos]
    have := extractZoneNumber_canonical N.natAbs (by omega) "state".toList
    rw [hnat] at this
    exact this
  have hcb : mqttCallback width height BASE_TOPIC zones
      (BASE_TOPIC ++ "/zone".toList ++ intToString N ++ "/state".toList) p =
      setStateLoop N (equalsCStr p "ON".toList) (addZone width height zones N [] false) := by
    unfold mqttCallback
    simp only [hext, if_pos hpos, if_true]
  rw [hcb]
  have hnum := addZone_map_number width height zones N [] false
  refine ⟨?_, ?_, ?_⟩
  · rw [setStateLoop_map_number, hnum]
  · have hmem : N ∈ (addZone width height zones N [] false).map (·.number) := by
      rw [hnum]
      by_cases h : N ∈ zones.map (·.number)
      · simp only [h, if_true]
      · simp only [h, if_false]; simp
    obtain ⟨z, hz1, hz2⟩ := setStateLoop_find N (equalsCStr p "ON".toList) _ hmem
    refine ⟨z, hz1, ?_, ?_⟩
    · rw [hz2]
      exact equalsCStr_ON p
    · intro hnul
      rw [hz2, equalsCStr_ON p, takeWhile_ne_nul p hnul]
  · intro i z hi hne
    obtain ⟨z1, h1, h2, h3, h4⟩ := addZone_getElem? width height zones N [] false i z hi
    refine ⟨z1, ?_, h2, h4 hne, h3⟩
    exact setStateLoop_getElem?_other N _ _ i z1 h1 (by rw [h2]; exact hne)

/-- Witness for C4: the message `zone7/state` with payload `ON`, which holds no NUL byte, on a
registry that holds zone 3: the numbers afterwards are 3 and 7 and zone 7 is open. -/
theorem mqttCallback_state_message_witness :
    (0 : Int) < 7 ∧ (7 : Int) ≤ 2147483647 ∧ Char.ofNat 0 ∉ "ON".toList ∧
    (mqttCallback 320 480 BASE_TOPIC
        [{ name := "Kitchen".toList, isOpen := true, x := 6, y := 54, w := 151, h := 420,
           number := 3 }]
        (BASE_TOPIC ++ "/zone".toList ++ intToString 7 ++ "/state".toList)
        "ON".toList).map (·.number) = [3, 7] ∧
    ∃ z, (mqttCallback 320 480 BASE_TOPIC
        [{ name := "Kitchen".toList, isOpen := true, x := 6, y := 54, w := 151, h := 420,
           number := 3 }]
        (BASE_TOPIC ++ "/zone".toList ++ intToString 7 ++ "/state".toList)
        "ON".toList).find? (fun z => z.number == 7) = some z ∧
      z.isOpen = true := by
  have h := mqttCallback_state_message 320 480
      [{ name := "Kitchen".toList, isOpen := true, x := 6, y := 54, w := 151, h := 420,
         number := 3 }] 7 (by decide) (by decide) "ON".toList
  obtain ⟨h1, ⟨z, hz, _, hz3⟩, _⟩ := h
  exact ⟨by decide, by decide, by decide, h1, z, hz, (hz3 (by decide)).2 rfl⟩

/-! ## Touch handling: what the code does -/

/-- A touch that resolves to index `k` toggles the zone at index `k` and publishes once, on the
topic built from `k + 1`, the new state as payload. -/
theorem loopTouch_resolved (base : AString) (zones : List Zone) (px py k : Nat)
    (hk : getTouchedZone zones (320 - (px : Int)) (480 - (py : Int)) = (k : Int)) :
    ∃ z, zones[k]? = some z ∧
      loopTouch base zones px py =
        (zones.set k { z with isOpen := !z.isOpen },
          [(base ++ "/zone".toList ++ intToString ((k : Int) + 1) ++ "/set".toList,
            if z.isOpen then "OFF".toList else "ON".toList)]) := by
  have hspec := (touchScan_spec (320 - (px : Int)) (480 - (py : Int)) zones 0).2 k
  have hk2 : (touchScan (320 - (px : Int)) (480 - (py : Int)) 0 zones).2 =
      ((0 + k : Nat) : Int) := by
    simpa [getTouchedZone, getTouchedZoneTraced] using hk
  obtain ⟨z, hz, _, _⟩ := hspec.1 hk2
  refine ⟨z, hz, ?_⟩
  unfold loopTouch
  simp only [hk]
  have hne : ¬ ((k : Int) = -1) := by omega
  simp only [ne_eq, hne, not_false_eq_true, if_true, Int.toNat_ofNat, hz]
  cases z.isOpen <;> simp

/-- A touch that resolves to no zone changes nothing and publishes nothing. -/
theorem loopTouch_unresolved (base : AString) (zones : List Zone) (px py : Nat)
    (hk : getTouchedZone zones (320 - (px : Int)) (480 - (py : Int)) = -1) :
    loopTouch base zones px py = (zones, []) := by
  unfold loopTouch
  simp [hk]

/-- C2, evaluation at the failing input: the registry holds one zone, number 7, created by the
message `zone-controller/zone7/state`.  The touch sample `(300, 400)` is corrected to
`(20, 80)` and resolves to index 0.  The handler opens the zone and publishes exactly once, with
payload `ON`, but on the topic `zone-controller/zone1/set`, built from the index plus one, and
not on `zone-controller/zone7/set`, the topic of the zone stored at index 0. -/
theorem loopTouch_topic_from_index :
    mqttCallback 320 480 BASE_TOPIC [] "zone-controller/zone7/state".toList "OFF".toList =
      [{ name := "Zone 7".toList, isOpen := false, x := 6, y := 54, w := 151, h := 420,
         number := 7 }] ∧
    getTouchedZone
      [{ name := "Zone 7".toList, isOpen := false, x := 6, y := 54, w := 151, h := 420,
         number := 7 }] (320 - 300) (480 - 400) = 0 ∧
    loopTouch BASE_TOPIC
      [{ name := "Zone 7".toList, isOpen := false, x := 6, y := 54, w := 151, h := 420,
         number := 7 }] 300 400 =
      ([{ name := "Zone 7".toList, isOpen := true, x := 6, y := 54, w := 151, h := 420,
          number := 7 }],
        [("zone-controller/zone1/set".toList, "ON".toList)]) ∧
    "zone-controller/zone1/set".toList ≠
      BASE_TOPIC ++ "/zone".toList ++ intToString 7 ++ "/set".toList := by
  decide

/-- C3, evaluation at the failing inputs: an empty payload on `zone-controller/zone3/name`
sets the display name to the empty string.  On the empty registry `addZone` creates the zone
with the default name `Zone 3`, and the callback then overwrites it; on a registry where zone 3
is named `Kitchen`, `addZone` keeps the name and the callback then overwrites it. -/
theorem mqttCallback_empty_name_overwrites :
    (addZone 320 480 [] 3 [] false).map (·.name) = ["Zone 3".toList] ∧
    (mqttCallback 320 480 BASE_TOPIC [] "zone-controller/zone3/name".toList []).map
        (fun z => (z.number, z.name)) = [(3, [])] ∧
    (addZone 320 480
        [{ name := "Kitchen".toList, isOpen := false, x := 6, y := 54, w := 151, h := 420,
           number := 3 }] 3 [] false).map (·.name) = ["Kitchen".toList] ∧
    (mqttCallback 320 480 BASE_TOPIC
        [{ name := "Kitchen".toList, isOpen := false, x := 6, y := 54, w := 151, h := 420,
           number := 3 }]
        "zone-controller/zone3/name".toList []).map (fun z => (z.number, z.name)) =
      [(3, [])] := by
  decide

end RoomController
